import Mathlib

/-!
Verification development for the Discrete Hankel Transform module
(`fbpic/hankel_dt.py`).

The Python module is embedded shallowly over exact rational arithmetic.
External numerical routines (`scipy.special.jn`, `scipy.special.jn_zeros`,
`scipy.optimize.fsolve`, `numpy.fft`, `numpy.linalg.inv`, and the float
constants/functions `numpy.pi`, `numpy.sqrt`, `numpy.exp`) are collaborators
of the repository, not part of it; they are modelled as an explicit oracle
record `NumEnv` over `ℚ`, so that every theorem is parametric in the
behaviour of these libraries and concrete witnesses can instantiate them
with executable rational stubs.  Python exceptions are modelled by
`Except PyErr`; `numpy.linalg.inv` (which raises `LinAlgError` on a
singular input) is modelled as an oracle returning `Option`.
-/

set_option maxRecDepth 8000

namespace FbpicHankelDT

/-- Oracle record modelling the external numerical libraries used by
`hankel_dt.py`.  `jn a x` models `scipy.special.jn(a, x)`; `jn_zeros a n i`
models `scipy.special.jn_zeros(a, n)[i]` (the `i`-th of the first `n`
positive zeros of the Bessel function of order `a`); `pi` models `np.pi`;
`sqrt`/`exp` model `np.sqrt`/`np.exp`; `fsolve_alpha N` models the value
returned by `fsolve(lambda x: exp(x*N)*(1-exp(-x)) - 1, x0=1.)[0]`;
`fft`/`ifft` model `np.fft.fft`/`np.fft.ifft` on a 1-D array;
`linalg_inv` models `np.linalg.inv`, with `none` standing for a raised
`LinAlgError`. -/
structure NumEnv where
  jn : ℤ → ℚ → ℚ
  jn_zeros : ℤ → ℕ → ℕ → ℚ
  pi : ℚ
  sqrt : ℚ → ℚ
  exp : ℚ → ℚ
  fsolve_alpha : ℕ → ℚ
  fft : List ℚ → List ℚ
  ifft : List ℚ → List ℚ
  linalg_inv : {n : ℕ} → Matrix (Fin n) (Fin n) ℚ → Option (Matrix (Fin n) (Fin n) ℚ)

/-- Python exceptions that the embedded code can raise.
`valueError_method` is `ValueError('Illegal method string')` from
`DHT.__init__`; `valueError_m p m` is the
`ValueError('m must be either %d, %d or %d, but is %d' % (p-1,p,p+1,m))`
from `DHT.MDHT_init`; `linAlgError` is the `numpy.linalg.LinAlgError`
raised by `np.linalg.inv` on a singular matrix; `attributeError` models
the `AttributeError` that a `DHT` object whose `Fw` option is neither
`'inverse'` nor `'symmetric'` would raise on first use of `self.M`
(no claim exercises this case; only its identity, distinct from the
`ValueError`s, matters). -/
inductive PyErr where
  | valueError_method
  | valueError_m (p m : ℤ)
  | linAlgError
  | attributeError
  deriving DecidableEq

/-- The list `available_methods` of `hankel_dt.py` (line 53).  Note that
it does not contain the string `'FHT'`. -/
def available_methods : List String := ["QDHT", "MDHT(m+1,m)", "MDHT(m-1,m)", "MDHT(m,m)"]

/-- The function `array_multiply(a, v, axis)` of `hankel_dt.py`, in the
1-D case (`a.ndim == 1`, as in every call site of this file the transform
axis is the last one and the embedded arrays are 1-D): the branch
`r = a * v` is taken and the result is the elementwise product. -/
def array_multiply (a v : List ℚ) : List ℚ := List.zipWith (· * ·) a v

/-! ## MDHT : matrix discrete Hankel transform (`DHT.MDHT_init` and friends) -/

/-- The list `include_0 = [-1, 1]` of `DHT.MDHT_init` (line 242). -/
def MDHT_include_0 : List ℤ := [-1, 1]

/-- The array `zeros` of `DHT.MDHT_init` (lines 243-248), as a function of
the index: `np.hstack((np.array([0.]), jn_zeros(m, N)))` when
`m in include_0`, else `jn_zeros(m, N+1)`.  In both cases the meaningful
indices are `0, ..., N`. -/
def MDHT_zerosArr (env : NumEnv) (m : ℤ) (N : ℕ) : ℕ → ℚ :=
  if m ∈ MDHT_include_0 then
    fun n => if n = 0 then 0 else env.jn_zeros m N (n - 1)
  else
    env.jn_zeros m (N + 1)

/-- Embeds `last_alpha = zeros[-1]` (line 249): the `(N+1)`-th entry. -/
def MDHT_last_alpha (env : NumEnv) (m : ℤ) (N : ℕ) : ℚ :=
  MDHT_zerosArr env m N N

/-- Embeds `alphas = zeros[:-1]` (line 250): the first `N` entries. -/
def MDHT_alphas (env : NumEnv) (m : ℤ) (N : ℕ) (n : ℕ) : ℚ :=
  MDHT_zerosArr env m N n

/-- Embeds `self.nu = 1./(2*np.pi*rmax) * alphas` (line 253). -/
def MDHT_nuF (env : NumEnv) (m : ℤ) (N : ℕ) (rmax : ℚ) (n : ℕ) : ℚ :=
  1 / (2 * env.pi * rmax) * MDHT_alphas env m N n

/-- The bandwidth product `S` of `DHT.MDHT_init` (lines 259-273):
`last_alpha` in the uniform-grid case (`d is not None`) and in the
Bessel-grid case with `m == p`; otherwise the Kai-Ming weighted-sum
formula with `k = int(N/4)`, `A = alphas[k]`, `J = jn_zeros(m,N)[-1]`. -/
def MDHT_S (env : NumEnv) (p m : ℤ) (N : ℕ) (d : Option ℚ) : ℚ :=
  match d with
  | some _ => MDHT_last_alpha env m N
  | none =>
    if m = p then MDHT_last_alpha env m N
    else
      |2 / env.jn (m - 1) (MDHT_alphas env m N (N / 4))| *
        env.sqrt (1 + ∑ i ∈ Finset.Ico 1 N,
          env.jn (m - 1) (MDHT_alphas env m N (N / 4) * MDHT_alphas env m N i /
              env.jn_zeros m N (N - 1)) ^ 2 /
            env.jn (m - 1) (MDHT_alphas env m N i) ^ 2)

/-- Embeds `self.r` of `DHT.MDHT_init` (lines 256-274): the uniform grid with
offset `d` when `d is not None`, else the Bessel-like grid
`rmax*alphas/S`. -/
def MDHT_rF (env : NumEnv) (p m : ℤ) (N : ℕ) (rmax : ℚ) (d : Option ℚ) (n : ℕ) : ℚ :=
  match d with
  | some dv => rmax * 1 / (N : ℚ) * ((n : ℚ) + dv)
  | none => rmax * MDHT_alphas env m N n / MDHT_S env p m N d

/-- Embeds `p_denom` of `DHT.MDHT_init` (lines 279-280): `m+1` if `p == m`,
else `p`. -/
def MDHT_p_denom (p m : ℤ) : ℤ := if p = m then m + 1 else p

/-- Embeds `denom = np.pi * rmax**2 * jn(p_denom, alphas)**2` (line 281),
before the 0/0 fix. -/
def MDHT_denom0 (env : NumEnv) (p m : ℤ) (N : ℕ) (rmax : ℚ) (i : ℕ) : ℚ :=
  env.pi * rmax ^ 2 * env.jn (MDHT_p_denom p m) (MDHT_alphas env m N i) ^ 2

/-- Embeds `num = jn(p, 2*np.pi*self.r[newaxis,:]*self.nu[:,newaxis])` (line 282):
entry `(i, j)` is `jn(p, 2*pi*r_j*nu_i)`. -/
def MDHT_num0 (env : NumEnv) (p m : ℤ) (N : ℕ) (rmax : ℚ) (d : Option ℚ) (i j : ℕ) : ℚ :=
  env.jn p (2 * env.pi * MDHT_rF env p m N rmax d j * MDHT_nuF env m N rmax i)

/-- The guard `denom[0] == 0 and np.all(num[0,:] == 0)` of line 284. -/
def MDHT_fix_cond (env : NumEnv) (p m : ℤ) (N : ℕ) (rmax : ℚ) (d : Option ℚ) : Bool :=
  decide (MDHT_denom0 env p m N rmax 0 = 0) &&
    (List.range N).all fun j => decide (MDHT_num0 env p m N rmax d 0 j = 0)

/-- Embeds `denom` after the conditional `denom[0] = 1` fix of line 285. -/
def MDHT_denomFixed (env : NumEnv) (p m : ℤ) (N : ℕ) (rmax : ℚ) (d : Option ℚ) (i : ℕ) : ℚ :=
  if i = 0 ∧ MDHT_fix_cond env p m N rmax d = true then 1
  else MDHT_denom0 env p m N rmax i

/-- Embeds `self.invM = num / denom[:, np.newaxis]` (line 286), as first stored. -/
def MDHT_invM_pre (env : NumEnv) (p m : ℤ) (N : ℕ) (rmax : ℚ) (d : Option ℚ) :
    Matrix (Fin N) (Fin N) ℚ :=
  Matrix.of fun i j =>
    MDHT_num0 env p m N rmax d (i : ℕ) (j : ℕ) / MDHT_denomFixed env p m N rmax d (i : ℕ)

/-- Embeds `nu_additional = 1./(2*np.pi*rmax) * last_alpha` (line 295). -/
def MDHT_nu_additional (env : NumEnv) (m : ℤ) (N : ℕ) (rmax : ℚ) : ℚ :=
  1 / (2 * env.pi * rmax) * MDHT_last_alpha env m N

/-- Embeds `denom` after the first-row replacement of line 296
(`denom[0] = np.pi*rmax**2*jn(p_denom, last_alpha)**2`). -/
def MDHT_denomCorr (env : NumEnv) (p m : ℤ) (N : ℕ) (rmax : ℚ) (d : Option ℚ) (i : ℕ) : ℚ :=
  if i = 0 then env.pi * rmax ^ 2 * env.jn (MDHT_p_denom p m) (MDHT_last_alpha env m N) ^ 2
  else MDHT_denomFixed env p m N rmax d i

/-- Embeds `num` after the first-row replacement of line 297
(`num[0,:] = jn(p, 2*np.pi*self.r[:]*nu_additional)`). -/
def MDHT_numCorr (env : NumEnv) (p m : ℤ) (N : ℕ) (rmax : ℚ) (d : Option ℚ) (i j : ℕ) : ℚ :=
  if i = 0 then env.jn p (2 * env.pi * MDHT_rF env p m N rmax d j * MDHT_nu_additional env m N rmax)
  else MDHT_num0 env p m N rmax d i j

/-- Embeds `self.invM = num / denom[:,np.newaxis]` (line 298): the matrix whose
inverse is taken in the degenerate branch. -/
def MDHT_invM_corr (env : NumEnv) (p m : ℤ) (N : ℕ) (rmax : ℚ) (d : Option ℚ) :
    Matrix (Fin N) (Fin N) ℚ :=
  Matrix.of fun i j =>
    MDHT_numCorr env p m N rmax d (i : ℕ) (j : ℕ) / MDHT_denomCorr env p m N rmax d (i : ℕ)

/-- The stored `invM` after `self.invM[0,:] = 0.` (line 302). -/
def MDHT_invM_corr_zeroed (env : NumEnv) (p m : ℤ) (N : ℕ) (rmax : ℚ) (d : Option ℚ) :
    Matrix (Fin N) (Fin N) ℚ :=
  Matrix.of fun i j =>
    if (i : ℕ) = 0 then 0 else MDHT_invM_corr env p m N rmax d i j

/-- Instance state stored by `DHT.MDHT_init`: the registered configuration
(lines 234-239), the grids `r` and `nu`, and the operators `invM` and `M`. -/
structure MDHTState (N : ℕ) where
  p : ℤ
  m : ℤ
  rmax : ℚ
  d : Option ℚ
  Fw : String
  r : List ℚ
  nu : List ℚ
  invM : Matrix (Fin N) (Fin N) ℚ
  M : Matrix (Fin N) (Fin N) ℚ
  deriving DecidableEq

/-- The stored radial grid `self.r` as a length-`N` array. -/
def MDHT_rList (env : NumEnv) (p m : ℤ) (N : ℕ) (rmax : ℚ) (d : Option ℚ) : List ℚ :=
  List.ofFn fun i : Fin N => MDHT_rF env p m N rmax d i

/-- The stored spectral grid `self.nu` as a length-`N` array. -/
def MDHT_nuList (env : NumEnv) (m : ℤ) (N : ℕ) (rmax : ℚ) : List ℚ :=
  List.ofFn fun i : Fin N => MDHT_nuF env m N rmax i

/-- The state built on the non-degenerate paths of `DHT.MDHT_init`
(`invM` is `num/denom` as first stored; `M` as supplied). -/
def MDHT_state_plain (env : NumEnv) (p m : ℤ) (N : ℕ) (rmax : ℚ) (d : Option ℚ)
    (Fw : String) (M : Matrix (Fin N) (Fin N) ℚ) : MDHTState N :=
  ⟨p, m, rmax, d, Fw, MDHT_rList env p m N rmax d, MDHT_nuList env m N rmax,
    MDHT_invM_pre env p m N rmax d, M⟩

/-- The state built on the degenerate branch of `DHT.MDHT_init`
(lines 290-302): `invM` is the corrected matrix with its first row zeroed
back out, `M` is the inverse of the corrected matrix. -/
def MDHT_state_corr (env : NumEnv) (p m : ℤ) (N : ℕ) (rmax : ℚ) (d : Option ℚ)
    (M : Matrix (Fin N) (Fin N) ℚ) : MDHTState N :=
  ⟨p, m, rmax, d, "inverse", MDHT_rList env p m N rmax d, MDHT_nuList env m N rmax,
    MDHT_invM_corr_zeroed env p m N rmax d, M⟩

/-- Embeds `DHT.MDHT_init(p, N, rmax, m, d, Fw)` (lines 200-307).  Mirrors the
source: the validity check on `m` first, then grid and matrix
construction, then the computation of `M` according to `Fw`, with the
degenerate first-row treatment when `m in include_0 and p != 0`. -/
def MDHT_init (env : NumEnv) (p : ℤ) (N : ℕ) (rmax : ℚ) (m : ℤ) (d : Option ℚ)
    (Fw : String) : Except PyErr (MDHTState N) :=
  if ¬ (m = p - 1 ∨ m = p ∨ m = p + 1) then
    Except.error (PyErr.valueError_m p m)
  else if Fw = "inverse" then
    if m ∈ MDHT_include_0 ∧ p ≠ 0 then
      match env.linalg_inv (MDHT_invM_corr env p m N rmax d) with
      | none => Except.error PyErr.linAlgError
      | some M => Except.ok (MDHT_state_corr env p m N rmax d M)
    else
      match env.linalg_inv (MDHT_invM_pre env p m N rmax d) with
      | none => Except.error PyErr.linAlgError
      | some M => Except.ok (MDHT_state_plain env p m N rmax d "inverse" M)
  else if Fw = "symmetric" then
    Except.ok (MDHT_state_plain env p m N rmax d "symmetric"
      ((2 * env.pi * rmax ^ 2 / MDHT_S env p m N d) ^ 2 •
        (MDHT_invM_pre env p m N rmax d).transpose))
  else
    Except.error PyErr.attributeError

/-- Embeds `DHT.MDHT_transform`: `G = np.dot(F, self.M)` (line 323, CPU path). -/
def MDHT_transform {N : ℕ} (st : MDHTState N) (F : Fin N → ℚ) : Fin N → ℚ :=
  Matrix.vecMul F st.M

/-- Embeds `DHT.MDHT_inverse_transform`: `F = np.dot(G, self.invM)` (line 342,
CPU path). -/
def MDHT_inverse_transform {N : ℕ} (st : MDHTState N) (G : Fin N → ℚ) : Fin N → ℚ :=
  Matrix.vecMul G st.invM

/-! ## QDHT : quasi-discrete Hankel transform (`DHT.QDHT_init` and friends) -/

/-- Embeds `alphas = zeros[:-1]` of `DHT.QDHT_init` (lines 360-364), with
`zeros = jn_zeros(p, N+1)`. -/
def QDHT_alphas (env : NumEnv) (p : ℤ) (N : ℕ) (n : ℕ) : ℚ :=
  env.jn_zeros p (N + 1) n

/-- Embeds `last_alpha = zeros[-1]` of `DHT.QDHT_init` (line 363). -/
def QDHT_last_alpha (env : NumEnv) (p : ℤ) (N : ℕ) : ℚ :=
  env.jn_zeros p (N + 1) N

/-- Embeds `numax = last_alpha/(2*np.pi*rmax)` (line 365). -/
def QDHT_numax (env : NumEnv) (p : ℤ) (N : ℕ) (rmax : ℚ) : ℚ :=
  QDHT_last_alpha env p N / (2 * env.pi * rmax)

/-- Embeds `self.r = rmax*alphas/last_alpha` (line 369). -/
def QDHT_rF (env : NumEnv) (p : ℤ) (N : ℕ) (rmax : ℚ) (n : ℕ) : ℚ :=
  rmax * QDHT_alphas env p N n / QDHT_last_alpha env p N

/-- Embeds `self.nu = numax*alphas/last_alpha` (line 370). -/
def QDHT_nuF (env : NumEnv) (p : ℤ) (N : ℕ) (rmax : ℚ) (n : ℕ) : ℚ :=
  QDHT_numax env p N rmax * QDHT_alphas env p N n / QDHT_last_alpha env p N

/-- Embeds `J = abs(jn(p+1, alphas))` (line 373). -/
def QDHT_J (env : NumEnv) (p : ℤ) (N : ℕ) (n : ℕ) : ℚ :=
  |env.jn (p + 1) (QDHT_alphas env p N n)|

/-- The matrix `self.T` of `DHT.QDHT_init` (lines 377-380):
`T[i,j] = 2*jn(p, alphas_i*alphas_j/last_alpha) / (J_i*J_j*last_alpha)`. -/
def QDHT_T (env : NumEnv) (p : ℤ) (N : ℕ) : Matrix (Fin N) (Fin N) ℚ :=
  Matrix.of fun i j =>
    2 * env.jn p (QDHT_alphas env p N i * QDHT_alphas env p N j / QDHT_last_alpha env p N) /
      (QDHT_J env p N i * QDHT_J env p N j * QDHT_last_alpha env p N)

/-- Instance state stored by `DHT.QDHT_init`: configuration, the grids,
the vectors `J`, `J_inv` and the symmetric matrix `T`. -/
structure QDHTState (N : ℕ) where
  p : ℤ
  rmax : ℚ
  numax : ℚ
  r : List ℚ
  nu : List ℚ
  J : Fin N → ℚ
  J_inv : Fin N → ℚ
  T : Matrix (Fin N) (Fin N) ℚ
  deriving DecidableEq

/-- Embeds `DHT.QDHT_init(p, N, rmax)` (lines 347-380).  Construction never
raises. -/
def QDHT_init (env : NumEnv) (p : ℤ) (N : ℕ) (rmax : ℚ) : QDHTState N :=
  ⟨p, rmax, QDHT_numax env p N rmax,
    List.ofFn fun i : Fin N => QDHT_rF env p N rmax i,
    List.ofFn fun i : Fin N => QDHT_nuF env p N rmax i,
    fun i => QDHT_J env p N i,
    fun i => 1 / QDHT_J env p N i,
    QDHT_T env p N⟩

/-- The 1-D instance of `array_multiply` on `Fin N`-indexed vectors, used
by the QDHT pre/post scaling steps. -/
def arrayMulFin {N : ℕ} (a v : Fin N → ℚ) : Fin N → ℚ := fun i => a i * v i

/-- Embeds `DHT.QDHT_transform` (lines 382-400): scale by `J_inv*rmax`,
right-multiply by `T`, scale by `J/numax`. -/
def QDHT_transform {N : ℕ} (st : QDHTState N) (F : Fin N → ℚ) : Fin N → ℚ :=
  let F1 := arrayMulFin F fun i => st.J_inv i * st.rmax
  let G := Matrix.vecMul F1 st.T
  arrayMulFin G fun i => st.J i / st.numax

/-- Embeds `DHT.QDHT_inverse_transform` (lines 402-420): scale by `J_inv*numax`,
right-multiply by `T`, scale by `J/rmax`. -/
def QDHT_inverse_transform {N : ℕ} (st : QDHTState N) (G : Fin N → ℚ) : Fin N → ℚ :=
  let G1 := arrayMulFin G fun i => st.J_inv i * st.numax
  let F := Matrix.vecMul G1 st.T
  arrayMulFin F fun i => st.J i / st.rmax

/-! ## FHT : fast Hankel transform (`DHT.FHT_init` and friends) -/

/-- The oversampling constant `K = 4.` of `DHT.FHT_init` (line 439). -/
def FHT_K : ℚ := 4

/-- The spacing exponent `alpha` returned by `fsolve` (lines 442-443),
supplied by the solver oracle. -/
def FHT_alphaOf (env : NumEnv) (N : ℕ) : ℚ := env.fsolve_alpha N

/-- Embeds `dr = rmax/np.exp(alpha*N)` (line 445). -/
def FHT_dr (env : NumEnv) (N : ℕ) (rmax : ℚ) : ℚ :=
  rmax / env.exp (FHT_alphaOf env N * N)

/-- Embeds `self.r = dr*np.exp(alpha*np.arange(N))` (line 448). -/
def FHT_rF (env : NumEnv) (N : ℕ) (rmax : ℚ) (n : ℕ) : ℚ :=
  FHT_dr env N rmax * env.exp (FHT_alphaOf env N * n)

/-- Embeds `self.nu = 1./(K*rmax)*np.exp(alpha*np.arange(N))` (line 449). -/
def FHT_nuF (env : NumEnv) (N : ℕ) (rmax : ℚ) (n : ℕ) : ℚ :=
  1 / (FHT_K * rmax) * env.exp (FHT_alphaOf env N * n)

/-- Embeds `r_nu = dr/(K*rmax) * np.exp(alpha*np.arange(2*N))` (line 452). -/
def FHT_r_nu (env : NumEnv) (N : ℕ) (rmax : ℚ) (n : ℕ) : ℚ :=
  FHT_dr env N rmax / (FHT_K * rmax) * env.exp (FHT_alphaOf env N * n)

/-- Embeds `j_convol = 2*np.pi*alpha*r_nu*jn(p, 2*np.pi*r_nu)` (line 453), a
length-`2N` array. -/
def FHT_j_convol (env : NumEnv) (p : ℤ) (N : ℕ) (rmax : ℚ) : List ℚ :=
  List.ofFn fun n : Fin (2 * N) =>
    2 * env.pi * FHT_alphaOf env N * FHT_r_nu env N rmax n *
      env.jn p (2 * env.pi * FHT_r_nu env N rmax n)

/-- Instance state stored by `DHT.FHT_init`: the grids and the
frequency-domain kernel `fft_j_convol`. -/
structure FHTState (N : ℕ) where
  p : ℤ
  r : List ℚ
  nu : List ℚ
  fft_j_convol : List ℚ
  deriving DecidableEq

/-- Embeds `DHT.FHT_init(p, N, rmax)` (lines 422-454); the stored kernel is
`np.fft.ifft(j_convol)`. -/
def FHT_init (env : NumEnv) (p : ℤ) (N : ℕ) (rmax : ℚ) : FHTState N :=
  ⟨p, List.ofFn fun i : Fin N => FHT_rF env N rmax i,
    List.ofFn fun i : Fin N => FHT_nuF env N rmax i,
    env.ifft (FHT_j_convol env p N rmax)⟩

/-- Embeds `np.fft.fft(x, axis=-1, n=n)`: the input is truncated or zero-padded
to length `n` before the transform. -/
def np_fft_pad (env : NumEnv) (n : ℕ) (x : List ℚ) : List ℚ :=
  env.fft (x.take n ++ List.replicate (n - x.length) 0)

/-- Embeds `DHT.FHT_transform` (lines 457-482), exactly as the code performs it:
scale by `r`; forward FFT with zero padding from `N` to `2N`; elementwise
multiply by the stored kernel; a second forward FFT (`np.fft.fft`, line
477); keep the first half (`np.split(..., 2)[0]`); scale by `1./nu`. -/
def FHT_transform (env : NumEnv) {N : ℕ} (st : FHTState N) (F : List ℚ) : List ℚ :=
  let rF := array_multiply F st.r
  let fft_rF := np_fft_pad env (2 * N) rF
  let fft_nuG := array_multiply fft_rF st.fft_j_convol
  let nuG_large := env.fft fft_nuG
  let nuG := nuG_large.take (nuG_large.length / 2)
  array_multiply nuG (st.nu.map fun x => 1 / x)

/-- Embeds `DHT.FHT_inverse_transform` (lines 484-509): the same pipeline with
the roles of `r` and `nu` exchanged. -/
def FHT_inverse_transform (env : NumEnv) {N : ℕ} (st : FHTState N) (G : List ℚ) : List ℚ :=
  let nuG := array_multiply G st.nu
  let fft_nuG := np_fft_pad env (2 * N) nuG
  let fft_rF := array_multiply fft_nuG st.fft_j_convol
  let rF_large := env.fft fft_rF
  let rF := rF_large.take (rF_large.length / 2)
  array_multiply rF (st.r.map fun x => 1 / x)

/-! ## DHT : dispatching constructor (`DHT.__init__`) -/

/-- The state of a constructed `DHT` object: the method-specific data of
exactly one of the three families. -/
inductive DHTState (N : ℕ) where
  | mdht (st : MDHTState N)
  | qdht (st : QDHTState N)
  | fht (st : FHTState N)
  deriving DecidableEq

/-- Embeds `DHT.__init__(p, N, rmax, method, **kw)` (lines 67-120): the method
string is validated against `available_methods` first (raising
`ValueError('Illegal method string')` otherwise), then the corresponding
initialization routine runs.  The `'FHT'` dispatch branch of line 111 is
embedded as in the source even though the validation makes it
unreachable (`'FHT'` is not in `available_methods`).  The GPU path
(`use_cuda`) is not modelled: in the absence of `numbapro`,
`cuda_installed` is `False` and `use_cuda` is forced to `False`, so the
CPU path below is the executed one. -/
def DHT_init (env : NumEnv) (p : ℤ) (N : ℕ) (rmax : ℚ) (method : String)
    (d : Option ℚ) (Fw : String) : Except PyErr (DHTState N) :=
  if available_methods.contains method = false then
    Except.error PyErr.valueError_method
  else if method = "FHT" then
    Except.ok (DHTState.fht (FHT_init env p N rmax))
  else if method = "QDHT" then
    Except.ok (DHTState.qdht (QDHT_init env p N rmax))
  else if method = "MDHT(m,m)" then
    (MDHT_init env p N rmax p d Fw).map DHTState.mdht
  else if method = "MDHT(m-1,m)" then
    (MDHT_init env p N rmax (p + 1) d Fw).map DHTState.mdht
  else if method = "MDHT(m+1,m)" then
    (MDHT_init env p N rmax (p - 1) d Fw).map DHTState.mdht
  else
    Except.error PyErr.attributeError

/-- The auxiliary Bessel order `m` that `DHT.__init__` passes to
`MDHT_init` for each matrix-family method string (lines 115-120). -/
def DHT_dispatch_m (method : String) (p : ℤ) : Option ℤ :=
  if method = "MDHT(m,m)" then some p
  else if method = "MDHT(m-1,m)" then some (p + 1)
  else if method = "MDHT(m+1,m)" then some (p - 1)
  else none

/-- Whether a `PyErr` is the auxiliary-order `ValueError` of
`DHT.MDHT_init` (lines 230-232). -/
def PyErr.is_valueError_m : PyErr → Bool
  | PyErr.valueError_m _ _ => true
  | _ => false

/-! ## Auxiliary definitions for the claims -/

/-- The forward FHT pipeline exactly as claim C5 words it: identical to
`FHT_transform` except that step 5 applies the INVERSE fast Fourier
transform (`np.fft.ifft`) where the code (line 477) applies the forward
one.  This definition follows the specification's words and is compared
against the source-derived `FHT_transform`. -/
def FHT_transform_claimed (env : NumEnv) {N : ℕ} (st : FHTState N) (F : List ℚ) : List ℚ :=
  let rF := array_multiply F st.r
  let fft_rF := np_fft_pad env (2 * N) rF
  let fft_nuG := array_multiply fft_rF st.fft_j_convol
  let nuG_large := env.ifft fft_nuG
  let nuG := nuG_large.take (nuG_large.length / 2)
  array_multiply nuG (st.nu.map fun x => 1 / x)

/-- The amended C5 pipeline: the seven steps in the claim's order with
step 5 corrected to a second forward FFT, and step 6 stated as the claim
states it — discard the last `N` of the `2N` values (`take N`). -/
def FHT_transform_amended (env : NumEnv) {N : ℕ} (st : FHTState N) (F : List ℚ) : List ℚ :=
  let scaled := array_multiply F st.r
  let spectrum := np_fft_pad env (2 * N) scaled
  let filtered := array_multiply spectrum st.fft_j_convol
  let back := env.fft filtered
  let firstHalf := back.take N
  array_multiply firstHalf (st.nu.map fun x => 1 / x)

/-- Composition used by the C2 counterexample: construct a `DHT` object
through the public constructor and apply `inverse_transform ∘ transform`
to `F`; `none` if construction raised or selected a non-MDHT method. -/
def MDHT_roundtrip_via_DHT (env : NumEnv) (p : ℤ) (N : ℕ) (rmax : ℚ) (method : String)
    (d : Option ℚ) (Fw : String) (F : Fin N → ℚ) : Option (Fin N → ℚ) :=
  match DHT_init env p N rmax method d Fw with
  | Except.ok (DHTState.mdht st) => some (MDHT_inverse_transform st (MDHT_transform st F))
  | _ => none

/-- Composition used by the C3 counterexample: the first entry of the
frequency grid of a `DHT` object constructed through the public
constructor (for an MDHT method). -/
def MDHT_nu0_via_DHT (env : NumEnv) (p : ℤ) (N : ℕ) (rmax : ℚ) (method : String)
    (d : Option ℚ) (Fw : String) : Option ℚ :=
  match DHT_init env p N rmax method d Fw with
  | Except.ok (DHTState.mdht st) => some (st.nu.getD 0 0)
  | _ => none

/-- Composition used by the C4 counterexample: the entry `invM[0,0]` of
a `DHT` object with `N = 1` constructed through the public constructor
(for an MDHT method). -/
def MDHT_invM00_via_DHT (env : NumEnv) (p : ℤ) (rmax : ℚ) (method : String)
    (d : Option ℚ) (Fw : String) : Option ℚ :=
  match DHT_init env p 1 rmax method d Fw with
  | Except.ok (DHTState.mdht st) => some (st.invM 0 0)
  | _ => none

/-- Embeds `DHT.MDHT_transform` as a method acting on the instance: it reads
`self.M` and assigns no instance attribute, so it returns the state
unchanged together with the result (source lines 309-325). -/
def MDHT_transform_method {N : ℕ} (st : MDHTState N) (F : Fin N → ℚ) :
    MDHTState N × (Fin N → ℚ) :=
  (st, MDHT_transform st F)

/-- Embeds `DHT.MDHT_inverse_transform` as a method acting on the instance
(source lines 328-344): no instance attribute is assigned. -/
def MDHT_inverse_transform_method {N : ℕ} (st : MDHTState N) (G : Fin N → ℚ) :
    MDHTState N × (Fin N → ℚ) :=
  (st, MDHT_inverse_transform st G)

/-- Embeds `DHT.QDHT_transform` as a method acting on the instance (source lines
382-400): the local rebinding `F = array_multiply(F, ...)` creates new
arrays and no instance attribute is assigned. -/
def QDHT_transform_method {N : ℕ} (st : QDHTState N) (F : Fin N → ℚ) :
    QDHTState N × (Fin N → ℚ) :=
  (st, QDHT_transform st F)

/-- Embeds `DHT.QDHT_inverse_transform` as a method acting on the instance
(source lines 402-420): no instance attribute is assigned. -/
def QDHT_inverse_transform_method {N : ℕ} (st : QDHTState N) (G : Fin N → ℚ) :
    QDHTState N × (Fin N → ℚ) :=
  (st, QDHT_inverse_transform st G)

/-! ## Concrete oracle instantiations

`envW` is an executable rational stand-in for the external libraries,
used by witnesses and counterexamples.  Its values mimic the qualitative
behaviour of the real routines at the few points where they are probed:
`jn a 0` is `1` for `a = 0` and `0` otherwise (the value of a true Bessel
function at the origin), `jn` is nonzero away from the origin, the Bessel
zeros `4, 8, 12, ...` are positive and strictly increasing, `pi` is a
positive rational, `exp` is a strictly increasing positive function equal
to `1` at `0`, `fft`/`ifft` are the genuine 2-point discrete Fourier
transform pair on real inputs, and `linalg_inv` returns `[[3]]` — the
true inverse of every `1×1` matrix `[[1/3]]` arising in the concrete
constructions below. -/
def envW : NumEnv where
  jn := fun a x => if x = 0 then (if a = 0 then 1 else 0) else 1
  jn_zeros := fun _ _ i => 4 * ((i : ℚ) + 1)
  pi := 3
  sqrt := fun x => x
  exp := fun x => if x < 0 then 1 / (1 - x) else 1 + x
  fsolve_alpha := fun _ => 1
  fft := fun x =>
    match x with
    | [a, b] => [a + b, a - b]
    | l => l
  ifft := fun x =>
    match x with
    | [a, b] => [(a + b) / 2, (a - b) / 2]
    | l => l
  linalg_inv := fun {n} _ => some ((3 : ℚ) • (1 : Matrix (Fin n) (Fin n) ℚ))

/-- A variant of `envW` whose `np.linalg.inv` raises on every input,
exercising the `LinAlgError` path. -/
def envNone : NumEnv :=
  { envW with linalg_inv := fun {_} _ => none }

/-! ## Helper lemmas -/

/-- If the first denominator entry is nonzero, the 0/0 guard of line 284
does not fire. -/
lemma MDHT_fix_cond_false_of_denom_ne (env : NumEnv) (p m : ℤ) (N : ℕ) (rmax : ℚ)
    (d : Option ℚ) (h : MDHT_denom0 env p m N rmax 0 ≠ 0) :
    MDHT_fix_cond env p m N rmax d = false := by
  simp [MDHT_fix_cond, h]

/-- When the 0/0 guard does not fire, the denominator is unchanged. -/
lemma MDHT_denomFixed_eq_of_fix_false (env : NumEnv) (p m : ℤ) (N : ℕ) (rmax : ℚ)
    (d : Option ℚ) (h : MDHT_fix_cond env p m N rmax d = false) (i : ℕ) :
    MDHT_denomFixed env p m N rmax d i = MDHT_denom0 env p m N rmax i := by
  simp [MDHT_denomFixed, h]

/-- Once `MDHT_init` has been entered with a valid auxiliary order, the
only exception it can produce is the `LinAlgError` of `np.linalg.inv`
(or the modelled late `AttributeError` for an unhandled `Fw`): never the
auxiliary-order `ValueError`. -/
lemma MDHT_init_error_not_valueError_m (env : NumEnv) (p : ℤ) (N : ℕ) (rmax : ℚ) (m : ℤ)
    (d : Option ℚ) (Fw : String) (e : PyErr)
    (hm : m = p - 1 ∨ m = p ∨ m = p + 1)
    (he : MDHT_init env p N rmax m d Fw = Except.error e) :
    e.is_valueError_m = false := by
  unfold MDHT_init at he
  rw [if_neg (not_not_intro hm)] at he
  by_cases hFw : Fw = "inverse"
  · rw [if_pos hFw] at he
    by_cases hc : m ∈ MDHT_include_0 ∧ p ≠ 0
    · rw [if_pos hc] at he
      cases hl : env.linalg_inv (MDHT_invM_corr env p m N rmax d) with
      | none => rw [hl] at he; injection he with h; rw [← h]; rfl
      | some M => rw [hl] at he; cases he
    · rw [if_neg hc] at he
      cases hl : env.linalg_inv (MDHT_invM_pre env p m N rmax d) with
      | none => rw [hl] at he; injection he with h; rw [← h]; rfl
      | some M => rw [hl] at he; cases he
  · rw [if_neg hFw] at he
    by_cases hFw2 : Fw = "symmetric"
    · rw [if_pos hFw2] at he; cases he
    · rw [if_neg hFw2] at he
      injection he with h; rw [← h]; rfl

/-- Every successful `MDHT_init` stores the same grids: the `r` and `nu`
arrays computed on lines 252-274, whatever the `Fw` branch. -/
lemma MDHT_init_ok_grids {env : NumEnv} {p : ℤ} {N : ℕ} {rmax : ℚ} {m : ℤ}
    {d : Option ℚ} {Fw : String} {st : MDHTState N}
    (hst : MDHT_init env p N rmax m d Fw = Except.ok st) :
    st.r = MDHT_rList env p m N rmax d ∧ st.nu = MDHT_nuList env m N rmax := by
  unfold MDHT_init at hst
  by_cases hmv : ¬ (m = p - 1 ∨ m = p ∨ m = p + 1)
  · rw [if_pos hmv] at hst; cases hst
  · rw [if_neg hmv] at hst
    by_cases hFw : Fw = "inverse"
    · rw [if_pos hFw] at hst
      by_cases hc : m ∈ MDHT_include_0 ∧ p ≠ 0
      · rw [if_pos hc] at hst
        cases hl : env.linalg_inv (MDHT_invM_corr env p m N rmax d) with
        | none => rw [hl] at hst; cases hst
        | some M =>
          rw [hl] at hst
          injection hst with h
          subst h
          exact ⟨rfl, rfl⟩
      · rw [if_neg hc] at hst
        cases hl : env.linalg_inv (MDHT_invM_pre env p m N rmax d) with
        | none => rw [hl] at hst; cases hst
        | some M =>
          rw [hl] at hst
          injection hst with h
          subst h
          exact ⟨rfl, rfl⟩
    · rw [if_neg hFw] at hst
      by_cases hFw2 : Fw = "symmetric"
      · rw [if_pos hFw2] at hst
        injection hst with h
        subst h
        exact ⟨rfl, rfl⟩
      · rw [if_neg hFw2] at hst; cases hst

/-! ## Claims -/

/-- C1: the claim states that the constructor accepts all four of
`'QDHT'`, `'MDHT(m,m)'`, `'MDHT(m-1,m)'`, `'MDHT(m+1,m)'` and `'FHT'`,
raising `ValueError` exactly for strings outside these four.  The code
contradicts this (and its own module docstring, which lists FHT as an
available method, as well as its own `'FHT'` dispatch branch on line
111): `available_methods` on line 53 omits `'FHT'`, so constructing with
`method='FHT'` raises `ValueError('Illegal method string')`.  This
theorem evaluates the embedded constructor at the failing input. -/
theorem C1_fht_rejected_at_construction (env : NumEnv) (p : ℤ) (N : ℕ) (rmax : ℚ)
    (d : Option ℚ) (Fw : String) :
    DHT_init env p N rmax "FHT" d Fw = Except.error PyErr.valueError_method ∧
    available_methods.contains "FHT" = false :=
  ⟨rfl, rfl⟩

/-- C10: for every matrix-family method string, the auxiliary order `m`
passed by the dispatch of `DHT.__init__` (lines 115-120) is one of
`p-1`, `p`, `p+1`, so the `ValueError` branch of `MDHT_init`
(lines 230-232) is unreachable through the public constructor: any
exception coming out of construction is not that `ValueError`. -/
theorem C10_mdht_m_check_unreachable (env : NumEnv) (p : ℤ) (N : ℕ) (rmax : ℚ)
    (method : String) (d : Option ℚ) (Fw : String) (m : ℤ) (e : PyErr)
    (hm : DHT_dispatch_m method p = some m)
    (he : DHT_init env p N rmax method d Fw = Except.error e) :
    (m = p - 1 ∨ m = p ∨ m = p + 1) ∧ e.is_valueError_m = false := by
  unfold DHT_dispatch_m at hm
  by_cases h1 : method = "MDHT(m,m)"
  · rw [if_pos h1] at hm
    injection hm with hm
    subst hm
    subst h1
    refine ⟨Or.inr (Or.inl rfl), ?_⟩
    unfold DHT_init at he
    rw [if_neg (by decide : ¬ (available_methods.contains "MDHT(m,m)" = false))] at he
    rw [if_neg (by decide : ¬ ("MDHT(m,m)" = "FHT"))] at he
    rw [if_neg (by decide : ¬ ("MDHT(m,m)" = "QDHT"))] at he
    rw [if_pos (rfl : "MDHT(m,m)" = "MDHT(m,m)")] at he
    cases hi : MDHT_init env p N rmax p d Fw with
    | error e2 =>
      rw [hi] at he
      injection he with h
      rw [← h]
      exact MDHT_init_error_not_valueError_m env p N rmax p d Fw e2
        (Or.inr (Or.inl rfl)) hi
    | ok st => rw [hi] at he; cases he
  · rw [if_neg h1] at hm
    by_cases h2 : method = "MDHT(m-1,m)"
    · rw [if_pos h2] at hm
      injection hm with hm
      subst hm
      subst h2
      refine ⟨Or.inr (Or.inr rfl), ?_⟩
      unfold DHT_init at he
      rw [if_neg (by decide : ¬ (available_methods.contains "MDHT(m-1,m)" = false))] at he
      rw [if_neg (by decide : ¬ ("MDHT(m-1,m)" = "FHT"))] at he
      rw [if_neg (by decide : ¬ ("MDHT(m-1,m)" = "QDHT"))] at he
      rw [if_neg (by decide : ¬ ("MDHT(m-1,m)" = "MDHT(m,m)"))] at he
      rw [if_pos (rfl : "MDHT(m-1,m)" = "MDHT(m-1,m)")] at he
      cases hi : MDHT_init env p N rmax (p + 1) d Fw with
      | error e2 =>
        rw [hi] at he
        injection he with h
        rw [← h]
        exact MDHT_init_error_not_valueError_m env p N rmax (p + 1) d Fw e2
          (Or.inr (Or.inr rfl)) hi
      | ok st => rw [hi] at he; cases he
    · rw [if_neg h2] at hm
      by_cases h3 : method = "MDHT(m+1,m)"
      · rw [if_pos h3] at hm
        injection hm with hm
        subst hm
        subst h3
        refine ⟨Or.inl rfl, ?_⟩
        unfold DHT_init at he
        rw [if_neg (by decide : ¬ (available_methods.contains "MDHT(m+1,m)" = false))] at he
        rw [if_neg (by decide : ¬ ("MDHT(m+1,m)" = "FHT"))] at he
        rw [if_neg (by decide : ¬ ("MDHT(m+1,m)" = "QDHT"))] at he
        rw [if_neg (by decide : ¬ ("MDHT(m+1,m)" = "MDHT(m,m)"))] at he
        rw [if_neg (by decide : ¬ ("MDHT(m+1,m)" = "MDHT(m-1,m)"))] at he
        rw [if_pos (rfl : "MDHT(m+1,m)" = "MDHT(m+1,m)")] at he
        cases hi : MDHT_init env p N rmax (p - 1) d Fw with
        | error e2 =>
          rw [hi] at he
          injection he with h
          rw [← h]
          exact MDHT_init_error_not_valueError_m env p N rmax (p - 1) d Fw e2
            (Or.inl rfl) hi
        | ok st => rw [hi] at he; cases he
      · rw [if_neg h3] at hm
        cases hm

/-- C10 witness: constructing `'MDHT(m,m)'` with an oracle whose
`np.linalg.inv` raises shows a construction-time exception that is a
`LinAlgError`, not the auxiliary-order `ValueError`, and the dispatched
`m` equals `p`. -/
theorem C10_mdht_m_check_unreachable_witness :
    (DHT_dispatch_m "MDHT(m,m)" 0 = some 0 ∧
      DHT_init envNone 0 1 1 "MDHT(m,m)" (some (1/2)) "inverse" =
        Except.error PyErr.linAlgError) ∧
    (((0:ℤ) = 0 - 1 ∨ (0:ℤ) = 0 ∨ (0:ℤ) = 0 + 1) ∧
      PyErr.is_valueError_m PyErr.linAlgError = false) :=
  ⟨⟨rfl, rfl⟩,
    C10_mdht_m_check_unreachable envNone 0 1 1 "MDHT(m,m)" (some (1/2)) "inverse" 0
      PyErr.linAlgError rfl rfl⟩

/-- C6: in the construction of `invM = num/denom`, if `denom[0] = 0` and
the whole first row of `num` vanishes, the guard of line 284 fires,
`denom[0]` is set to `1` before the division, and the first row of the
stored `invM` is exactly zero.  The treatment is local: the guard and fix
are ordinary (total) arithmetic on the operands and raise nothing. -/
theorem C6_zero_over_zero_row_fix (env : NumEnv) (p m : ℤ) (N : ℕ) (rmax : ℚ)
    (d : Option ℚ) (j : Fin N) (hN : 0 < N)
    (hd0 : MDHT_denom0 env p m N rmax 0 = 0)
    (hnum : ∀ jj : ℕ, jj < N → MDHT_num0 env p m N rmax d 0 jj = 0) :
    MDHT_fix_cond env p m N rmax d = true ∧
    MDHT_denomFixed env p m N rmax d 0 = 1 ∧
    MDHT_invM_pre env p m N rmax d ⟨0, hN⟩ j = 0 := by
  have hfc : MDHT_fix_cond env p m N rmax d = true := by
    simp only [MDHT_fix_cond, hd0, decide_true_eq_true, Bool.true_and, List.all_eq_true,
      List.mem_range, decide_eq_true_eq]
    exact fun jj hjj => hnum jj hjj
  refine ⟨hfc, ?_, ?_⟩
  · simp [MDHT_denomFixed, hfc]
  · simp [MDHT_invM_pre, Matrix.of_apply, hnum (j : ℕ) j.isLt]

/-- C6 witness: for `p = 2`, `m = 1`, `N = 1` (the degenerate pairing
reachable as `'MDHT(m+1,m)'` with `p = 2`), the zero is prepended, so
`nu[0] = 0`, `denom[0] = pi*rmax^2*jn(2,0)^2 = 0` and
`num[0,:] = jn(2,0) = 0`: the guard fires and the first row of
`invM` is zero. -/
theorem C6_zero_over_zero_row_fix_witness :
    (MDHT_denom0 envW 2 1 1 1 0 = 0 ∧
      MDHT_num0 envW 2 1 1 1 (some (1/2)) 0 0 = 0) ∧
    (MDHT_fix_cond envW 2 1 1 1 (some (1/2)) = true ∧
      MDHT_denomFixed envW 2 1 1 1 (some (1/2)) 0 = 1 ∧
      MDHT_invM_pre envW 2 1 1 1 (some (1/2)) ⟨0, Nat.one_pos⟩ 0 = 0) := by
  have hd0 : MDHT_denom0 envW 2 1 1 1 0 = 0 := by
    simp [MDHT_denom0, MDHT_p_denom, MDHT_alphas, MDHT_zerosArr, MDHT_include_0, envW]
  have hnum : ∀ jj : ℕ, jj < 1 → MDHT_num0 envW 2 1 1 1 (some (1/2)) 0 jj = 0 := by
    intro jj hjj
    have hjj0 : jj = 0 := by omega
    subst hjj0
    simp [MDHT_num0, MDHT_nuF, MDHT_alphas, MDHT_zerosArr, MDHT_include_0, MDHT_rF, envW]
  exact ⟨⟨hd0, hnum 0 Nat.one_pos⟩,
    C6_zero_over_zero_row_fix envW 2 1 1 1 (some (1/2)) 0 Nat.one_pos hd0 hnum⟩

/-- C3 (amended): the zero is prepended to the Bessel-zero sequence
exactly when the auxiliary order `m` is one of the literal values `-1`
or `1` (the list `include_0 = [-1, 1]` of line 242) — not, as the claim
states, whenever `m = p-1` or `m = p+1`.  When it is prepended, the
zeros used are `0` followed by the first `N` positive zeros of order `m`
and `nu[0] = 0`; for every other valid order `m'`, the first `N+1`
positive zeros of order `m'` are used. -/
theorem C3_zero_prepended_iff_include0 (env : NumEnv) (p p' m m' : ℤ) (N : ℕ)
    (rmax : ℚ) (n : ℕ)
    (hm0 : m ∈ MDHT_include_0) (hmv : m = p - 1 ∨ m = p ∨ m = p + 1)
    (hm0' : m' ∉ MDHT_include_0) (hmv' : m' = p' - 1 ∨ m' = p' ∨ m' = p' + 1) :
    MDHT_zerosArr env m N 0 = 0 ∧
    MDHT_zerosArr env m N (n + 1) = env.jn_zeros m N n ∧
    MDHT_nuF env m N rmax 0 = 0 ∧
    MDHT_zerosArr env m' N n = env.jn_zeros m' (N + 1) n := by
  refine ⟨?_, ?_, ?_, ?_⟩
  · simp [MDHT_zerosArr, hm0]
  · simp [MDHT_zerosArr, hm0]
  · simp [MDHT_nuF, MDHT_alphas, MDHT_zerosArr, hm0]
  · simp [MDHT_zerosArr, hm0']

/-- C3 witness: `m = 1` (valid for `p = 2`) gets the prepended zero and
`nu[0] = 0`; `m' = 2` (valid for `p' = 3`) uses `jn_zeros(2, N+1)`. -/
theorem C3_zero_prepended_iff_include0_witness :
    ((1:ℤ) ∈ MDHT_include_0 ∧ ((1:ℤ) = 2 - 1 ∨ (1:ℤ) = 2 ∨ (1:ℤ) = 2 + 1) ∧
      (2:ℤ) ∉ MDHT_include_0 ∧ ((2:ℤ) = 3 - 1 ∨ (2:ℤ) = 3 ∨ (2:ℤ) = 3 + 1)) ∧
    (MDHT_zerosArr envW 1 1 0 = 0 ∧
      MDHT_zerosArr envW 1 1 (0 + 1) = envW.jn_zeros 1 1 0 ∧
      MDHT_nuF envW 1 1 1 0 = 0 ∧
      MDHT_zerosArr envW 2 1 0 = envW.jn_zeros 2 (1 + 1) 0) :=
  ⟨⟨by decide, by decide, by decide, by decide⟩,
    C3_zero_prepended_iff_include0 envW 2 3 1 2 1 1 0 (by decide) (by decide)
      (by decide) (by decide)⟩

/-- C3 counterexample: for `p = 3` with the public method
`'MDHT(m+1,m)'`, the auxiliary order is `m = p - 1 = 2`, which satisfies
the claim's prepend condition (`m = p-1` or `m = p+1`), yet the
constructed instance has `nu[0] = 2/3 ≠ 0` (the scaled first positive
zero of order 2 under the concrete oracle): no zero was prepended, so
the claim's characterization of when the prepend occurs is false. -/
theorem C3_counterexample :
    ((2:ℤ) = 3 - 1 ∨ (2:ℤ) = 3 + 1) ∧
    MDHT_nu0_via_DHT envW 3 1 1 "MDHT(m+1,m)" (some (1/2)) "inverse" = some (2/3) ∧
    (2/3 : ℚ) ≠ 0 := by
  refine ⟨by decide, ?_, by norm_num⟩
  show some ((MDHT_state_plain envW 3 2 1 1 (some (1/2)) "inverse" ((3:ℚ) • 1)).nu.getD 0 0) = _
  simp [MDHT_state_plain, MDHT_nuList, MDHT_nuF, MDHT_alphas, MDHT_zerosArr, MDHT_include_0,
    envW, List.ofFn_succ]
  norm_num

/-- C2 (amended): for every matrix-family instance whose forward matrix
is obtained by direct inversion — i.e. `Fw = 'inverse'` and not
(`m in include_0` and `p != 0`), the branch of line 303-304 — and with
`np.linalg.inv` idealized as returning the exact inverse `B` of `invM`,
the stored `M` and `invM` are exact inverses of one another and the two
round trips reproduce every input exactly.  (In the degenerate branch
the claim fails: see the counterexample, where `invM`'s first row is
zeroed, making `invM` singular.) -/
theorem C2_mdht_roundtrip_exact (env : NumEnv) (p m : ℤ) (N : ℕ) (rmax : ℚ)
    (d : Option ℚ) (B : Matrix (Fin N) (Fin N) ℚ) (F G : Fin N → ℚ)
    (hm : m = p - 1 ∨ m = p ∨ m = p + 1)
    (hbr : ¬ (m ∈ MDHT_include_0 ∧ p ≠ 0))
    (hinv : env.linalg_inv (MDHT_invM_pre env p m N rmax d) = some B)
    (hB1 : MDHT_invM_pre env p m N rmax d * B = 1)
    (hB2 : B * MDHT_invM_pre env p m N rmax d = 1) :
    MDHT_init env p N rmax m d "inverse" =
      Except.ok (MDHT_state_plain env p m N rmax d "inverse" B) ∧
    (MDHT_state_plain env p m N rmax d "inverse" B).M *
      (MDHT_state_plain env p m N rmax d "inverse" B).invM = 1 ∧
    (MDHT_state_plain env p m N rmax d "inverse" B).invM *
      (MDHT_state_plain env p m N rmax d "inverse" B).M = 1 ∧
    MDHT_inverse_transform (MDHT_state_plain env p m N rmax d "inverse" B)
      (MDHT_transform (MDHT_state_plain env p m N rmax d "inverse" B) F) = F ∧
    MDHT_transform (MDHT_state_plain env p m N rmax d "inverse" B)
      (MDHT_inverse_transform (MDHT_state_plain env p m N rmax d "inverse" B) G) = G := by
  have hMst : (MDHT_state_plain env p m N rmax d "inverse" B).M = B := rfl
  have hIst : (MDHT_state_plain env p m N rmax d "inverse" B).invM =
      MDHT_invM_pre env p m N rmax d := rfl
  refine ⟨?_, ?_, ?_, ?_, ?_⟩
  · unfold MDHT_init
    rw [if_neg (not_not_intro hm), if_pos rfl, if_neg hbr, hinv]
  · rw [hMst, hIst]; exact hB2
  · rw [hIst, hMst]; exact hB1
  · unfold MDHT_transform MDHT_inverse_transform
    rw [Matrix.vecMul_vecMul, hMst, hIst, hB2, Matrix.vecMul_one]
  · unfold MDHT_transform MDHT_inverse_transform
    rw [Matrix.vecMul_vecMul, hMst, hIst, hB1, Matrix.vecMul_one]

/-- C2 witness: the `'MDHT(m,m)'` configuration `p = m = 0`, `N = 1`,
`rmax = 1` under the concrete oracle has `invM = [[1/3]]` and the oracle
inverse `[[3]]` — its true inverse — and the round trips are exact. -/
theorem C2_mdht_roundtrip_exact_witness :
    (((0:ℤ) = 0 - 1 ∨ (0:ℤ) = 0 ∨ (0:ℤ) = 0 + 1) ∧
      ¬ ((0:ℤ) ∈ MDHT_include_0 ∧ (0:ℤ) ≠ 0) ∧
      envW.linalg_inv (MDHT_invM_pre envW 0 0 1 1 (some (1/2))) = some ((3:ℚ) • 1) ∧
      MDHT_invM_pre envW 0 0 1 1 (some (1/2)) * ((3:ℚ) • 1) = 1 ∧
      ((3:ℚ) • 1) * MDHT_invM_pre envW 0 0 1 1 (some (1/2)) = 1) ∧
    (MDHT_init envW 0 1 1 0 (some (1/2)) "inverse" =
        Except.ok (MDHT_state_plain envW 0 0 1 1 (some (1/2)) "inverse" ((3:ℚ) • 1)) ∧
      (MDHT_state_plain envW 0 0 1 1 (some (1/2)) "inverse" ((3:ℚ) • 1)).M *
        (MDHT_state_plain envW 0 0 1 1 (some (1/2)) "inverse" ((3:ℚ) • 1)).invM = 1 ∧
      (MDHT_state_plain envW 0 0 1 1 (some (1/2)) "inverse" ((3:ℚ) • 1)).invM *
        (MDHT_state_plain envW 0 0 1 1 (some (1/2)) "inverse" ((3:ℚ) • 1)).M = 1 ∧
      MDHT_inverse_transform (MDHT_state_plain envW 0 0 1 1 (some (1/2)) "inverse" ((3:ℚ) • 1))
        (MDHT_transform (MDHT_state_plain envW 0 0 1 1 (some (1/2)) "inverse" ((3:ℚ) • 1))
          ![5]) = ![5] ∧
      MDHT_transform (MDHT_state_plain envW 0 0 1 1 (some (1/2)) "inverse" ((3:ℚ) • 1))
        (MDHT_inverse_transform (MDHT_state_plain envW 0 0 1 1 (some (1/2)) "inverse" ((3:ℚ) • 1))
          ![7]) = ![7]) := by
  have h0 : MDHT_denom0 envW 0 0 1 1 0 ≠ 0 := by
    simp [MDHT_denom0, MDHT_p_denom, MDHT_alphas, MDHT_zerosArr, MDHT_include_0, envW]
  have hdf : ∀ i : ℕ, MDHT_denomFixed envW 0 0 1 1 (some (1/2)) i = MDHT_denom0 envW 0 0 1 1 i :=
    MDHT_denomFixed_eq_of_fix_false _ _ _ _ _ _ (MDHT_fix_cond_false_of_denom_ne _ _ _ _ _ _ h0)
  have hB1 : MDHT_invM_pre envW 0 0 1 1 (some (1/2)) * ((3:ℚ) • 1) = 1 := by
    ext i j
    fin_cases i; fin_cases j
    rw [Matrix.mul_apply, Fin.sum_univ_one]
    simp only [MDHT_invM_pre, Matrix.of_apply, hdf]
    simp [MDHT_denom0, MDHT_num0, MDHT_p_denom, MDHT_alphas, MDHT_zerosArr, MDHT_nuF, MDHT_rF,
      MDHT_include_0, envW]
  have hB2 : ((3:ℚ) • 1) * MDHT_invM_pre envW 0 0 1 1 (some (1/2)) = 1 := by
    ext i j
    fin_cases i; fin_cases j
    rw [Matrix.mul_apply, Fin.sum_univ_one]
    simp only [MDHT_invM_pre, Matrix.of_apply, hdf]
    simp [MDHT_denom0, MDHT_num0, MDHT_p_denom, MDHT_alphas, MDHT_zerosArr, MDHT_nuF, MDHT_rF,
      MDHT_include_0, envW]
  exact ⟨⟨by decide, by decide, rfl, hB1, hB2⟩,
    C2_mdht_roundtrip_exact envW 0 0 1 1 (some (1/2)) ((3:ℚ) • 1) ![5] ![7]
      (by decide) (by decide) rfl hB1 hB2⟩

/-- C2 counterexample: for `p = 2` with the public method
`'MDHT(m+1,m)'` (so `m = 1`, the degenerate branch), construction
succeeds, but applying `transform` then `inverse_transform` to the input
`[1]` yields `[0]`, not `[1]`: the stored `invM` has its first row
zeroed (line 302), so `M` and `invM` are not inverses of one another and
the round trip does not reproduce the input. -/
theorem C2_counterexample :
    MDHT_roundtrip_via_DHT envW 2 1 1 "MDHT(m+1,m)" (some (1/2)) "inverse" ![1] = some ![0] ∧
    some (![0] : Fin 1 → ℚ) ≠ some ![1] := by
  constructor
  · show some (MDHT_inverse_transform (MDHT_state_corr envW 2 1 1 1 (some (1/2)) ((3:ℚ) • 1))
      (MDHT_transform (MDHT_state_corr envW 2 1 1 1 (some (1/2)) ((3:ℚ) • 1)) ![1])) = _
    congr 1
    funext j
    fin_cases j
    simp [MDHT_inverse_transform, MDHT_transform, MDHT_state_corr, MDHT_invM_corr_zeroed,
      Matrix.vecMul, Matrix.dotProduct, Fin.sum_univ_one]
  · intro h
    have h0 := congrFun (Option.some.inj h) 0
    simp at h0

/-- C4 (amended): the first-row replacement / inversion / re-zeroing
construction of lines 290-302 is taken exactly when `Fw = 'inverse'`,
`m` is one of the literal values `-1`, `1` (`include_0`), and `p ≠ 0` —
not, as the claim states, whenever `m = p-1` or `m = p+1` with `p ≠ 0`.
When taken, and with `np.linalg.inv` (oracle) succeeding on the
corrected matrix, construction does not raise: it returns the state
whose `invM` has first row zero and whose forward matrix `M` is the
inverse of the corrected matrix (a matrix of rationals, hence finite in
every row).  For a valid order `m'` outside `include_0` (for example
`m' = p'-1` with `p' = 3`), the plain-inversion branch is taken
instead. -/
theorem C4_degenerate_first_row_construction (env : NumEnv) (p p' m m' : ℤ) (N : ℕ)
    (rmax : ℚ) (d d' : Option ℚ) (B B' : Matrix (Fin N) (Fin N) ℚ) (i j : Fin N)
    (hm : m = p - 1 ∨ m = p ∨ m = p + 1)
    (hc : m ∈ MDHT_include_0 ∧ p ≠ 0)
    (hinv : env.linalg_inv (MDHT_invM_corr env p m N rmax d) = some B)
    (hi : (i : ℕ) = 0)
    (hm' : m' = p' - 1 ∨ m' = p' ∨ m' = p' + 1)
    (hc' : ¬ (m' ∈ MDHT_include_0 ∧ p' ≠ 0))
    (hinv' : env.linalg_inv (MDHT_invM_pre env p' m' N rmax d') = some B') :
    MDHT_init env p N rmax m d "inverse" =
      Except.ok (MDHT_state_corr env p m N rmax d B) ∧
    (MDHT_state_corr env p m N rmax d B).invM i j = 0 ∧
    (MDHT_state_corr env p m N rmax d B).M = B ∧
    MDHT_init env p' N rmax m' d' "inverse" =
      Except.ok (MDHT_state_plain env p' m' N rmax d' "inverse" B') := by
  refine ⟨?_, ?_, rfl, ?_⟩
  · unfold MDHT_init
    rw [if_neg (not_not_intro hm), if_pos rfl, if_pos hc, hinv]
  · simp [MDHT_state_corr, MDHT_invM_corr_zeroed, hi]
  · unfold MDHT_init
    rw [if_neg (not_not_intro hm'), if_pos rfl, if_neg hc', hinv']

/-- C4 witness: the degenerate pairing `p = 2`, `m = 1` (reachable as
`'MDHT(m+1,m)'`) takes the corrected construction without raising, and
the neighbouring-but-not-degenerate pairing `p' = 0`, `m' = 0` takes the
plain branch. -/
theorem C4_degenerate_first_row_construction_witness :
    (((1:ℤ) = 2 - 1 ∨ (1:ℤ) = 2 ∨ (1:ℤ) = 2 + 1) ∧
      ((1:ℤ) ∈ MDHT_include_0 ∧ (2:ℤ) ≠ 0) ∧
      envW.linalg_inv (MDHT_invM_corr envW 2 1 1 1 (some (1/2))) = some ((3:ℚ) • 1) ∧
      ¬ ((0:ℤ) ∈ MDHT_include_0 ∧ (0:ℤ) ≠ 0) ∧
      envW.linalg_inv (MDHT_invM_pre envW 0 0 1 1 (some (1/2))) = some ((3:ℚ) • 1)) ∧
    (MDHT_init envW 2 1 1 1 (some (1/2)) "inverse" =
        Except.ok (MDHT_state_corr envW 2 1 1 1 (some (1/2)) ((3:ℚ) • 1)) ∧
      (MDHT_state_corr envW 2 1 1 1 (some (1/2)) ((3:ℚ) • 1)).invM 0 0 = 0 ∧
      (MDHT_state_corr envW 2 1 1 1 (some (1/2)) ((3:ℚ) • 1)).M = (3:ℚ) • 1 ∧
      MDHT_init envW 0 1 1 0 (some (1/2)) "inverse" =
        Except.ok (MDHT_state_plain envW 0 0 1 1 (some (1/2)) "inverse" ((3:ℚ) • 1))) :=
  ⟨⟨by decide, by decide, rfl, by decide, rfl⟩,
    C4_degenerate_first_row_construction envW 2 0 1 0 1 1 (some (1/2)) (some (1/2))
      ((3:ℚ) • 1) ((3:ℚ) • 1) 0 0 (by decide) (by decide) rfl rfl
      (by decide) (by decide) rfl⟩

/-- C4 counterexample: for `p = 3` with the public method
`'MDHT(m+1,m)'` the auxiliary order is `m = p - 1 = 2` and `p ≠ 0`, so
the claim asserts the first-row-replacement construction applies and
`invM`'s first row is zeroed back out; but the code takes the plain
branch (`2` is not in `include_0 = [-1, 1]`), and the constructed
instance has `invM[0,0] = 1/3 ≠ 0`. -/
theorem C4_counterexample :
    ((2:ℤ) = 3 - 1 ∧ (3:ℤ) ≠ 0) ∧
    MDHT_invM00_via_DHT envW 3 1 "MDHT(m+1,m)" (some (1/2)) "inverse" = some (1/3) ∧
    (1/3 : ℚ) ≠ 0 := by
  refine ⟨by decide, ?_, by norm_num⟩
  show some ((MDHT_state_plain envW 3 2 1 1 (some (1/2)) "inverse" ((3:ℚ) • 1)).invM 0 0) = _
  have h0 : MDHT_denom0 envW 3 2 1 1 0 ≠ 0 := by
    simp [MDHT_denom0, MDHT_p_denom, MDHT_alphas, MDHT_zerosArr, MDHT_include_0, envW]
  have hdf : ∀ i : ℕ, MDHT_denomFixed envW 3 2 1 1 (some (1/2)) i = MDHT_denom0 envW 3 2 1 1 i :=
    MDHT_denomFixed_eq_of_fix_false _ _ _ _ _ _ (MDHT_fix_cond_false_of_denom_ne _ _ _ _ _ _ h0)
  simp only [MDHT_state_plain, MDHT_invM_pre, Matrix.of_apply, hdf]
  simp [MDHT_denom0, MDHT_num0, MDHT_p_denom, MDHT_alphas, MDHT_zerosArr, MDHT_nuF, MDHT_rF,
    MDHT_include_0, envW]

/-- C5 (amended): the forward FHT pipeline is: scale by `r`; zero-pad
from `N` to `2N` and apply the forward FFT; multiply elementwise by the
stored kernel `fft_j_convol`; apply the forward FFT a second time
(`np.fft.fft` on line 477 — not the inverse FFT the claim states);
discard the last `N` of the `2N` values; scale by `1/nu`.  Assuming only
that the FFT oracles are length-preserving (true of `np.fft`), the
code's `np.split(..., 2)[0]` equals the claim's "discard the second
half", and the whole transform coincides with this amended step
sequence. -/
theorem C5_fht_pipeline_amended (env : NumEnv) (p : ℤ) (N : ℕ) (rmax : ℚ) (F : List ℚ)
    (hf : ∀ x, (env.fft x).length = x.length)
    (hi : ∀ x, (env.ifft x).length = x.length) :
    FHT_transform env (FHT_init env p N rmax) F =
      FHT_transform_amended env (FHT_init env p N rmax) F := by
  have hker : (FHT_init env p N rmax).fft_j_convol.length = 2 * N := by
    show (env.ifft (FHT_j_convol env p N rmax)).length = 2 * N
    rw [hi]
    simp [FHT_j_convol]
  have hpad : ∀ x : List ℚ, (np_fft_pad env (2 * N) x).length = 2 * N := by
    intro x
    unfold np_fft_pad
    rw [hf]
    simp
    omega
  have hlen : (env.fft (array_multiply
      (np_fft_pad env (2 * N) (array_multiply F (FHT_init env p N rmax).r))
      (FHT_init env p N rmax).fft_j_convol)).length = 2 * N := by
    rw [hf]
    unfold array_multiply
    rw [List.length_zipWith, hpad _, hker]
    omega
  simp only [FHT_transform, FHT_transform_amended]
  rw [hlen]
  have h2 : 2 * N / 2 = N := by omega
  rw [h2]

/-- C5 counterexample: with the genuine 2-point DFT pair as the FFT
oracles and `N = 1`, the code's pipeline (second forward FFT) produces
`[3/2]` on the input `[1]`, while the claim's pipeline (inverse FFT at
step 5) produces `[3/4]`: the claim's step 5 does not describe the
code. -/
theorem C5_counterexample :
    FHT_transform envW (FHT_init envW 0 1 1) [1] = [3/2] ∧
    FHT_transform_claimed envW (FHT_init envW 0 1 1) [1] = [3/4] ∧
    ([3/2] : List ℚ) ≠ [3/4] := by
  refine ⟨?_, ?_, by norm_num⟩
  · simp only [FHT_transform, FHT_init, FHT_j_convol, FHT_r_nu, FHT_rF, FHT_nuF, FHT_dr,
      FHT_alphaOf, FHT_K, array_multiply, np_fft_pad, envW, List.ofFn_succ, List.ofFn_zero]
    norm_num
  · simp only [FHT_transform_claimed, FHT_init, FHT_j_convol, FHT_r_nu, FHT_rF, FHT_nuF, FHT_dr,
      FHT_alphaOf, FHT_K, array_multiply, np_fft_pad, envW, List.ofFn_succ, List.ofFn_zero]
    norm_num

/-- The 2-point DFT oracle of `envW` preserves lengths, as `np.fft`
does. -/
lemma envW_fft_length (x : List ℚ) : (envW.fft x).length = x.length := by
  match x with
  | [] => rfl
  | [a] => rfl
  | [a, b] => rfl
  | a :: b :: c :: t => rfl

/-- The 2-point inverse DFT oracle of `envW` preserves lengths, as
`np.fft` does. -/
lemma envW_ifft_length (x : List ℚ) : (envW.ifft x).length = x.length := by
  match x with
  | [] => rfl
  | [a] => rfl
  | [a, b] => rfl
  | a :: b :: c :: t => rfl

/-- C5 witness: at `p = 0`, `N = 1`, `rmax = 1`, input `[1]`, with the
length-preserving 2-point DFT oracles, the code pipeline coincides with
the amended step sequence. -/
theorem C5_fht_pipeline_amended_witness :
    FHT_transform envW (FHT_init envW 0 1 1) [1] =
      FHT_transform_amended envW (FHT_init envW 0 1 1) [1] :=
  C5_fht_pipeline_amended envW 0 1 1 [1] envW_fft_length envW_ifft_length

/-- Right multiplication by a fixed matrix is linear in the vector. -/
lemma vecMul_linear {N : ℕ} (M : Matrix (Fin N) (Fin N) ℚ) (a b : ℚ) (F1 F2 : Fin N → ℚ) :
    Matrix.vecMul (a • F1 + b • F2) M =
      a • Matrix.vecMul F1 M + b • Matrix.vecMul F2 M := by
  rw [Matrix.add_vecMul, Matrix.vecMul_smul, Matrix.vecMul_smul]

/-- Elementwise scaling by a fixed vector is linear. -/
lemma arrayMulFin_linear {N : ℕ} (v : Fin N → ℚ) (a b : ℚ) (F1 F2 : Fin N → ℚ) :
    arrayMulFin (a • F1 + b • F2) v = a • arrayMulFin F1 v + b • arrayMulFin F2 v := by
  funext i
  simp only [arrayMulFin, Pi.add_apply, Pi.smul_apply, smul_eq_mul]
  ring

/-- C8: on every constructed matrix-family or quasi-discrete instance
(the two families reachable through the public constructor; the FHT
family is rejected at construction, see C1), `transform` and
`inverse_transform` are linear in the input array.  The statement is
exact because the embedding works in exact rational arithmetic. -/
theorem C8_transform_linear {N : ℕ} (stM : MDHTState N) (stQ : QDHTState N) (a b : ℚ)
    (F1 F2 : Fin N → ℚ) :
    MDHT_transform stM (a • F1 + b • F2) =
      a • MDHT_transform stM F1 + b • MDHT_transform stM F2 ∧
    MDHT_inverse_transform stM (a • F1 + b • F2) =
      a • MDHT_inverse_transform stM F1 + b • MDHT_inverse_transform stM F2 ∧
    QDHT_transform stQ (a • F1 + b • F2) =
      a • QDHT_transform stQ F1 + b • QDHT_transform stQ F2 ∧
    QDHT_inverse_transform stQ (a • F1 + b • F2) =
      a • QDHT_inverse_transform stQ F1 + b • QDHT_inverse_transform stQ F2 := by
  refine ⟨?_, ?_, ?_, ?_⟩
  · exact vecMul_linear stM.M a b F1 F2
  · exact vecMul_linear stM.invM a b F1 F2
  · show arrayMulFin (Matrix.vecMul
        (arrayMulFin (a • F1 + b • F2) fun i => stQ.J_inv i * stQ.rmax) stQ.T)
        (fun i => stQ.J i / stQ.numax) = _
    rw [arrayMulFin_linear, vecMul_linear, arrayMulFin_linear]
    rfl
  · show arrayMulFin (Matrix.vecMul
        (arrayMulFin (a • F1 + b • F2) fun i => stQ.J_inv i * stQ.numax) stQ.T)
        (fun i => stQ.J i / stQ.rmax) = _
    rw [arrayMulFin_linear, vecMul_linear, arrayMulFin_linear]
    rfl

/-- C9: the transform calls are pure reads.  Each method embedding
returns the instance state unchanged (the Python methods assign no
instance attribute: they only read `self.M`, `self.invM`, `self.T`,
`self.J`, `self.J_inv`, `self.rmax`, `self.numax`), the caller's input
array is untouched (the embedding is functional and `array_multiply`
builds its result from fresh products), and the output is a value of the
same shape — length `N` along the transform axis, witnessed on `Fin N`
vectors by the result type and on 1-D arrays by the `array_multiply`
length law `len (a*v) = min (len a) (len v)`. -/
theorem C9_transform_calls_pure {N : ℕ} (stM : MDHTState N) (stQ : QDHTState N)
    (F G : Fin N → ℚ) (a v : List ℚ) :
    (MDHT_transform_method stM F).1 = stM ∧
    (MDHT_inverse_transform_method stM G).1 = stM ∧
    (QDHT_transform_method stQ F).1 = stQ ∧
    (QDHT_inverse_transform_method stQ G).1 = stQ ∧
    (MDHT_transform_method stM F).2 = MDHT_transform stM F ∧
    (QDHT_transform_method stQ F).2 = QDHT_transform stQ F ∧
    (array_multiply a v).length = min a.length v.length :=
  ⟨rfl, rfl, rfl, rfl, rfl, rfl, List.length_zipWith _ _ _⟩

/-- A grid array built from an index function that is strictly
increasing below `N` and nonnegative at `0` is a strictly increasing
list of length `N` with nonnegative first element. -/
lemma grid_facts {N : ℕ} (f : ℕ → ℚ) (hmono : ∀ i j : ℕ, i < j → j < N → f i < f j)
    (h0 : 0 ≤ f 0) :
    (List.ofFn fun i : Fin N => f i).Sorted (· < ·) ∧
    (List.ofFn fun i : Fin N => f i).length = N ∧
    0 ≤ (List.ofFn fun i : Fin N => f i).getD 0 0 := by
  refine ⟨?_, List.length_ofFn _, ?_⟩
  · refine List.pairwise_ofFn.mpr ?_
    intro i j hij
    exact hmono i j hij j.isLt
  · cases N with
    | zero => simp
    | succ n =>
      rw [List.ofFn_succ]
      simpa using h0

/-- The `alphas` sequence of `MDHT_init` is strictly increasing on the
first `N` indices, for any oracle whose `jn_zeros` arrays are positive
and strictly increasing. -/
lemma MDHT_alphas_lt (env : NumEnv) (m : ℤ) (N : ℕ)
    (hz_mono : ∀ (a : ℤ) (n i j : ℕ), i < j → j < n → env.jn_zeros a n i < env.jn_zeros a n j)
    (hz_pos : ∀ (a : ℤ) (n i : ℕ), i < n → 0 < env.jn_zeros a n i) :
    ∀ i j : ℕ, i < j → j < N → MDHT_alphas env m N i < MDHT_alphas env m N j := by
  intro i j hij hj
  by_cases hm0 : m ∈ MDHT_include_0
  · simp only [MDHT_alphas, MDHT_zerosArr, if_pos hm0]
    have hj0 : ¬ (j = 0) := by omega
    rw [if_neg hj0]
    by_cases hi0 : i = 0
    · rw [if_pos hi0]
      exact hz_pos m N (j - 1) (by omega)
    · rw [if_neg hi0]
      exact hz_mono m N (i - 1) (j - 1) (by omega) (by omega)
  · simp only [MDHT_alphas, MDHT_zerosArr, if_neg hm0]
    exact hz_mono m (N + 1) i j hij (by omega)

/-- The first `alphas` entry of `MDHT_init` is nonnegative: it is `0`
when the zero is prepended and a positive Bessel zero otherwise. -/
lemma MDHT_alphas_zero_nonneg (env : NumEnv) (m : ℤ) (N : ℕ)
    (hz_pos : ∀ (a : ℤ) (n i : ℕ), i < n → 0 < env.jn_zeros a n i) :
    0 ≤ MDHT_alphas env m N 0 := by
  by_cases hm0 : m ∈ MDHT_include_0
  · simp [MDHT_alphas, MDHT_zerosArr, if_pos hm0]
  · simp only [MDHT_alphas, MDHT_zerosArr, if_neg hm0]
    exact le_of_lt (hz_pos m (N + 1) 0 (by omega))

/-- The spacing exponent found by the FHT root solve is positive: from
`exp(alpha*N)*(1 - exp(-alpha)) = 1` and positivity/monotonicity of the
exponential, `alpha ≤ 0` would make the left side nonpositive. -/
lemma FHT_alpha_pos (env : NumEnv) (N : ℕ)
    (hE_mono : StrictMono env.exp) (hE_pos : ∀ x, 0 < env.exp x)
    (hE_zero : env.exp 0 = 1)
    (hroot : env.exp (env.fsolve_alpha N * N) * (1 - env.exp (-(env.fsolve_alpha N))) = 1) :
    0 < env.fsolve_alpha N := by
  by_contra h
  push_neg at h
  have h1 : (1:ℚ) ≤ env.exp (-(env.fsolve_alpha N)) := by
    rw [← hE_zero]
    exact hE_mono.monotone (by linarith)
  have h2 : env.exp (env.fsolve_alpha N * N) * (1 - env.exp (-(env.fsolve_alpha N))) ≤ 0 :=
    mul_nonpos_of_nonneg_of_nonpos (le_of_lt (hE_pos _)) (by linarith)
  rw [hroot] at h2
  linarith

/-- C7: grid invariants.  For every constructible method and every valid
configuration at the documented defaults (`p ≥ 0`, `N ≥ 1`, `rmax > 0`,
`d = 0.5`), under the documented behaviour of the external routines
(positive strictly increasing Bessel-zero arrays, positive `pi`, and for
the FHT grids a strictly increasing positive exponential and the root
property of the solved spacing exponent), the stored radial grid `r` and
frequency grid `nu` — the arrays returned by `get_r`/`get_nu` — are
strictly increasing lists of length `N` whose first element is
nonnegative.  This covers the QDHT grids, the grids of every
successfully constructed MDHT instance, and the grids `FHT_init` would
build (the FHT method itself is unreachable through the constructor,
see C1). -/
theorem C7_grids_strictly_increasing (env : NumEnv) (p m : ℤ) (N : ℕ) (rmax : ℚ)
    (Fw : String) (st : MDHTState N)
    (hz_mono : ∀ (a : ℤ) (n i j : ℕ), i < j → j < n → env.jn_zeros a n i < env.jn_zeros a n j)
    (hz_pos : ∀ (a : ℤ) (n i : ℕ), i < n → 0 < env.jn_zeros a n i)
    (hpi : 0 < env.pi) (hrmax : 0 < rmax) (hN : 0 < N) (hp : 0 ≤ p)
    (hm : m = p - 1 ∨ m = p ∨ m = p + 1)
    (hst : MDHT_init env p N rmax m (some (1/2)) Fw = Except.ok st)
    (hE_mono : StrictMono env.exp) (hE_pos : ∀ x, 0 < env.exp x)
    (hE_zero : env.exp 0 = 1)
    (hroot : env.exp (env.fsolve_alpha N * N) * (1 - env.exp (-(env.fsolve_alpha N))) = 1) :
    ((QDHT_init env p N rmax).r.Sorted (· < ·) ∧ (QDHT_init env p N rmax).r.length = N ∧
      0 ≤ (QDHT_init env p N rmax).r.getD 0 0) ∧
    ((QDHT_init env p N rmax).nu.Sorted (· < ·) ∧ (QDHT_init env p N rmax).nu.length = N ∧
      0 ≤ (QDHT_init env p N rmax).nu.getD 0 0) ∧
    (st.r.Sorted (· < ·) ∧ st.r.length = N ∧ 0 ≤ st.r.getD 0 0) ∧
    (st.nu.Sorted (· < ·) ∧ st.nu.length = N ∧ 0 ≤ st.nu.getD 0 0) ∧
    ((FHT_init env p N rmax).r.Sorted (· < ·) ∧ (FHT_init env p N rmax).r.length = N ∧
      0 ≤ (FHT_init env p N rmax).r.getD 0 0) ∧
    ((FHT_init env p N rmax).nu.Sorted (· < ·) ∧ (FHT_init env p N rmax).nu.length = N ∧
      0 ≤ (FHT_init env p N rmax).nu.getD 0 0) := by
  -- shared positivity facts
  have hlastQ : 0 < QDHT_last_alpha env p N := hz_pos p (N + 1) N (by omega)
  have h2pr : 0 < 2 * env.pi * rmax := by positivity
  -- QDHT radial grid
  have hQr : ∀ i j : ℕ, i < j → j < N → QDHT_rF env p N rmax i < QDHT_rF env p N rmax j := by
    intro i j hij hj
    unfold QDHT_rF
    rw [div_lt_div_iff_of_pos_right hlastQ]
    exact mul_lt_mul_of_pos_left (hz_mono p (N + 1) i j hij (by omega)) hrmax
  have hQr0 : 0 ≤ QDHT_rF env p N rmax 0 := by
    unfold QDHT_rF
    have := hz_pos p (N + 1) 0 (by omega)
    positivity
  -- QDHT frequency grid
  have hnumax : 0 < QDHT_numax env p N rmax := div_pos hlastQ h2pr
  have hQnu : ∀ i j : ℕ, i < j → j < N → QDHT_nuF env p N rmax i < QDHT_nuF env p N rmax j := by
    intro i j hij hj
    unfold QDHT_nuF
    rw [div_lt_div_iff_of_pos_right hlastQ]
    exact mul_lt_mul_of_pos_left (hz_mono p (N + 1) i j hij (by omega)) hnumax
  have hQnu0 : 0 ≤ QDHT_nuF env p N rmax 0 := by
    unfold QDHT_nuF
    have := hz_pos p (N + 1) 0 (by omega)
    positivity
  -- MDHT radial grid (uniform with offset 1/2)
  have hNQ : (0:ℚ) < (N:ℚ) := by exact_mod_cast hN
  have hscaleM : 0 < rmax * 1 / (N:ℚ) := by positivity
  have hMr : ∀ i j : ℕ, i < j →
      j < N → MDHT_rF env p m N rmax (some (1/2)) i < MDHT_rF env p m N rmax (some (1/2)) j := by
    intro i j hij hj
    show rmax * 1 / (N:ℚ) * ((i:ℚ) + 1/2) < rmax * 1 / (N:ℚ) * ((j:ℚ) + 1/2)
    have hcast : (i:ℚ) < (j:ℚ) := by exact_mod_cast hij
    exact mul_lt_mul_of_pos_left (by linarith) hscaleM
  have hMr0 : 0 ≤ MDHT_rF env p m N rmax (some (1/2)) 0 := by
    show 0 ≤ rmax * 1 / (N:ℚ) * ((0:ℕ) + 1/2)
    positivity
  -- MDHT frequency grid
  have hscaleNu : 0 < 1 / (2 * env.pi * rmax) := by positivity
  have hMnu : ∀ i j : ℕ, i < j →
      j < N → MDHT_nuF env m N rmax i < MDHT_nuF env m N rmax j := by
    intro i j hij hj
    unfold MDHT_nuF
    exact mul_lt_mul_of_pos_left (MDHT_alphas_lt env m N hz_mono hz_pos i j hij hj) hscaleNu
  have hMnu0 : 0 ≤ MDHT_nuF env m N rmax 0 := by
    unfold MDHT_nuF
    exact mul_nonneg (le_of_lt hscaleNu) (MDHT_alphas_zero_nonneg env m N hz_pos)
  -- FHT grids
  have hA : 0 < env.fsolve_alpha N := FHT_alpha_pos env N hE_mono hE_pos hE_zero hroot
  have hdr : 0 < FHT_dr env N rmax := div_pos hrmax (hE_pos _)
  have hFr : ∀ i j : ℕ, i < j → j < N → FHT_rF env N rmax i < FHT_rF env N rmax j := by
    intro i j hij hj
    unfold FHT_rF
    have hcast : (i:ℚ) < (j:ℚ) := by exact_mod_cast hij
    exact mul_lt_mul_of_pos_left
      (hE_mono (mul_lt_mul_of_pos_left hcast hA)) hdr
  have hFr0 : 0 ≤ FHT_rF env N rmax 0 := le_of_lt (mul_pos hdr (hE_pos _))
  have hscaleF : 0 < 1 / (FHT_K * rmax) := by
    unfold FHT_K
    positivity
  have hFnu : ∀ i j : ℕ, i < j → j < N → FHT_nuF env N rmax i < FHT_nuF env N rmax j := by
    intro i j hij hj
    unfold FHT_nuF
    have hcast : (i:ℚ) < (j:ℚ) := by exact_mod_cast hij
    exact mul_lt_mul_of_pos_left
      (hE_mono (mul_lt_mul_of_pos_left hcast hA)) hscaleF
  have hFnu0 : 0 ≤ FHT_nuF env N rmax 0 := le_of_lt (mul_pos hscaleF (hE_pos _))
  -- assemble
  obtain ⟨hstr, hstnu⟩ := MDHT_init_ok_grids hst
  refine ⟨grid_facts _ hQr hQr0, grid_facts _ hQnu hQnu0, ?_, ?_,
    grid_facts _ hFr hFr0, grid_facts _ hFnu hFnu0⟩
  · rw [hstr]
    exact grid_facts _ hMr hMr0
  · rw [hstnu]
    exact grid_facts _ hMnu hMnu0

/-- The stand-in Bessel zeros `4, 8, 12, ...` are strictly increasing. -/
lemma envW_jn_zeros_mono :
    ∀ (a : ℤ) (n i j : ℕ), i < j → j < n → envW.jn_zeros a n i < envW.jn_zeros a n j := by
  intro a n i j hij _
  show (4:ℚ) * ((i:ℚ) + 1) < 4 * ((j:ℚ) + 1)
  have hc : (i:ℚ) < (j:ℚ) := by exact_mod_cast hij
  linarith

/-- The stand-in Bessel zeros are positive. -/
lemma envW_jn_zeros_pos : ∀ (a : ℤ) (n i : ℕ), i < n → 0 < envW.jn_zeros a n i := by
  intro a n i _
  show (0:ℚ) < 4 * ((i:ℚ) + 1)
  positivity

/-- The stand-in exponential of `envW` is positive. -/
lemma envW_exp_pos (x : ℚ) : 0 < envW.exp x := by
  show (0:ℚ) < if x < 0 then 1 / (1 - x) else 1 + x
  split_ifs with h
  · exact one_div_pos.mpr (by linarith)
  · have := not_lt.mp h
    linarith

/-- The stand-in exponential of `envW` is strictly increasing. -/
lemma envW_exp_strictMono : StrictMono envW.exp := by
  intro x y hxy
  show (if x < 0 then 1 / (1 - x) else 1 + x) < (if y < 0 then 1 / (1 - y) else 1 + y)
  split_ifs with hx hy hy
  · exact one_div_lt_one_div_of_lt (by linarith) (by linarith)
  · have hy' : 0 ≤ y := not_lt.mp hy
    have h1 : 1 / (1 - x) < 1 := by
      rw [div_lt_one (by linarith)]
      linarith
    linarith
  · exfalso
    have := not_lt.mp hx
    linarith
  · linarith

/-- The stand-in exponential of `envW` takes the value `1` at `0`. -/
lemma envW_exp_zero : envW.exp 0 = 1 := by
  show (if (0:ℚ) < 0 then 1 / (1 - 0) else 1 + 0) = 1
  norm_num

/-- C7 witness: the concrete configuration `p = 0`, `N = 1`, `rmax = 1`
(QDHT grids, the `'MDHT(m,m)'` instance, and the FHT grids) under the
concrete oracle, whose Bessel zeros are positive and increasing and
whose exponential stand-in satisfies the root equation at `N = 1` with
`alpha = 1`. -/
theorem C7_grids_strictly_increasing_witness :
    ((0:ℚ) < envW.pi ∧
      envW.exp (envW.fsolve_alpha 1 * (1:ℕ)) * (1 - envW.exp (-(envW.fsolve_alpha 1))) = 1) ∧
    (((QDHT_init envW 0 1 1).r.Sorted (· < ·) ∧ (QDHT_init envW 0 1 1).r.length = 1 ∧
        0 ≤ (QDHT_init envW 0 1 1).r.getD 0 0) ∧
      ((QDHT_init envW 0 1 1).nu.Sorted (· < ·) ∧ (QDHT_init envW 0 1 1).nu.length = 1 ∧
        0 ≤ (QDHT_init envW 0 1 1).nu.getD 0 0) ∧
      ((MDHT_state_plain envW 0 0 1 1 (some (1/2)) "inverse" ((3:ℚ) • 1)).r.Sorted (· < ·) ∧
        (MDHT_state_plain envW 0 0 1 1 (some (1/2)) "inverse" ((3:ℚ) • 1)).r.length = 1 ∧
        0 ≤ (MDHT_state_plain envW 0 0 1 1 (some (1/2)) "inverse" ((3:ℚ) • 1)).r.getD 0 0) ∧
      ((MDHT_state_plain envW 0 0 1 1 (some (1/2)) "inverse" ((3:ℚ) • 1)).nu.Sorted (· < ·) ∧
        (MDHT_state_plain envW 0 0 1 1 (some (1/2)) "inverse" ((3:ℚ) • 1)).nu.length = 1 ∧
        0 ≤ (MDHT_state_plain envW 0 0 1 1 (some (1/2)) "inverse" ((3:ℚ) • 1)).nu.getD 0 0) ∧
      ((FHT_init envW 0 1 1).r.Sorted (· < ·) ∧ (FHT_init envW 0 1 1).r.length = 1 ∧
        0 ≤ (FHT_init envW 0 1 1).r.getD 0 0) ∧
      ((FHT_init envW 0 1 1).nu.Sorted (· < ·) ∧ (FHT_init envW 0 1 1).nu.length = 1 ∧
        0 ≤ (FHT_init envW 0 1 1).nu.getD 0 0)) :=
  ⟨⟨by norm_num [envW], by norm_num [envW]⟩,
    C7_grids_strictly_increasing envW 0 0 1 1 "inverse"
      (MDHT_state_plain envW 0 0 1 1 (some (1/2)) "inverse" ((3:ℚ) • 1))
      envW_jn_zeros_mono envW_jn_zeros_pos (by norm_num [envW]) (by norm_num)
      (by norm_num) (le_refl 0) (by decide) rfl
      envW_exp_strictMono envW_exp_pos envW_exp_zero (by norm_num [envW])⟩

end FbpicHankelDT
